import Mathlib

/-!
Shallow embedding of `src/output/traiding_simulation/TraidingEngine.py`
(class `TraidingEngine`).

Modelling conventions:
* Python floats are modelled as exact rationals `ℚ`; the literal tolerance
  `1e-9` used by the source becomes the exact rational `eps = 1/10^9`, and the
  price floor `0.0001` becomes `1/10^4`.
* Python dicts keyed by symbol are modelled as association lists
  `List (String × α)` (unique keys in every reachable state).
* Order status and order side are the source's strings
  ("open"/"triggered"/"cancelled", "buy"/"sell").
* Randomness: `update_market_data` samples a percentage change per symbol
  (normal draw plus an occasional spike); the embedding takes the total
  sampled change as an explicit parameter `pct : String → ℚ`.
* Nondeterministic or wall-clock data that no claim depends on is omitted:
  uuid order ids, datetime timestamps, and the per-symbol `price_history`
  deque. The bounded `portfolio_history` deque (maxlen 1000) is kept, as a
  list of equity values with explicit eviction.
* A Python `raise` is modelled by returning the pre-call state together with
  `Except.error`; in the source every raise site precedes the first mutation
  of `self`, which is exactly what the atomicity theorems below check.
-/

namespace TraidingEngine

/-- Tolerance 1e-9 used throughout the source for float comparisons. -/
def eps : ℚ := 1 / 1000000000

/-- Price floor 0.0001 applied by `update_market_data`. -/
def priceFloor : ℚ := 1 / 10000

/-- Association-list lookup (Python `d.get(k)` / `d[k]`). -/
def lookupA {α : Type} : List (String × α) → String → Option α
  | [], _ => none
  | (k', v) :: rest, k => if k' = k then some v else lookupA rest k

/-- Association-list update (Python `d[k] = v`): replaces the binding if the
key is present, appends it otherwise (Python dicts keep insertion order). -/
def updateA {α : Type} : List (String × α) → String → α → List (String × α)
  | [], k, v => [(k, v)]
  | (k', v') :: rest, k, v =>
      if k' = k then (k, v) :: rest else (k', v') :: updateA rest k v

/-- Association-list removal (Python `del d[k]`). -/
def eraseA {α : Type} : List (String × α) → String → List (String × α)
  | [], _ => []
  | (k', v') :: rest, k => if k' = k then rest else (k', v') :: eraseA rest k

/-- Portfolio entry: `self.portfolio[symbol] = {'quantity': ..., 'avg_price': ...}`. -/
structure Position where
  quantity : ℚ
  avg_price : ℚ
deriving DecidableEq

/-- Conditional (stop-loss / take-profit) order, as built in `place_order`.
The uuid `id` and `created_at`/`triggered_at`/`cancelled_at` timestamps are
omitted (no claim reads them). -/
structure CondOrder where
  symbol : String
  side : String
  quantity : ℚ
  stop_loss : Option ℚ
  take_profit : Option ℚ
  status : String
deriving DecidableEq

/-- Executed-trade record appended to `self.trade_history`; the uuid `id`,
the timestamp and the `triggered_by` back-reference are omitted. -/
structure Trade where
  symbol : String
  side : String
  quantity : ℚ
  price : ℚ
  realized_pnl : Option ℚ
deriving DecidableEq

/-- The mutable state of one `TraidingEngine` instance. -/
structure EngineState where
  market_data : List (String × ℚ)
  portfolio : List (String × Position)
  cash : ℚ
  realized_pnl : ℚ
  conditional_orders : List CondOrder
  trade_history : List Trade
  portfolio_history : List ℚ
deriving DecidableEq

/-- Deque append with `maxlen = 1000`: evict from the left on overflow. -/
def histPush (h : List ℚ) (x : ℚ) : List ℚ :=
  let h2 := h ++ [x]
  if h2.length > 1000 then h2.drop (h2.length - 1000) else h2

/-- Market value of a position entry at current prices; the source indexes
`self.market_data[symbol]` directly (portfolio symbols are always present
in the market data, so the `none` branch is unreachable). -/
def marketValue (st : EngineState) : ℚ :=
  (st.portfolio.map (fun sp =>
    (match lookupA st.market_data sp.1 with
     | some p => p
     | none => 0) * sp.2.quantity)).sum

/-- `_record_portfolio`: append current equity (cash + market value) to the
bounded portfolio history. -/
def record_portfolio (st : EngineState) : EngineState :=
  { st with portfolio_history := histPush st.portfolio_history (st.cash + marketValue st) }

/-- `__init__(seed, starting_cash)`: the five built-in symbols with their
initial prices, empty portfolio, no orders, one initial equity snapshot. -/
def initState (starting_cash : ℚ) : EngineState :=
  record_portfolio
    { market_data := [("AAPL", 150), ("GOOGL", 2800), ("TSLA", 700),
                      ("BTCUSD", 50000), ("ETHUSD", 3500)],
      portfolio := [],
      cash := starting_cash,
      realized_pnl := 0,
      conditional_orders := [],
      trade_history := [],
      portfolio_history := [] }

/-- `update_market_data`: apply the sampled percentage change `pct s` to every
symbol `s`, flooring the new price at `priceFloor` (0.0001). The source's
normal draw and occasional spike are both folded into `pct`. -/
def update_market_data (pct : String → ℚ) (st : EngineState) : EngineState :=
  { st with market_data :=
      st.market_data.map (fun sp => (sp.1, max priceFloor (sp.2 * (1 + pct sp.1)))) }

/-- Currently held quantity for a symbol:
`self.portfolio.get(symbol, {}).get('quantity', 0.0)`. -/
def holdingQty (st : EngineState) (symbol : String) : ℚ :=
  match lookupA st.portfolio symbol with
  | some pos => pos.quantity
  | none => 0

/-- Position update performed by the buy branch of `place_order`: re-average
an existing position with the new fill, or create a fresh position at the
fill price. -/
def buyFill (pos : Option Position) (price : ℚ) (quantity : ℚ) : Position :=
  match pos with
  | some p =>
      { quantity := p.quantity + quantity,
        avg_price := (p.avg_price * p.quantity + price * quantity) / (p.quantity + quantity) }
  | none => { quantity := quantity, avg_price := price }

/-- `validate_order(symbol, order_type, quantity)`: pure pre-check, returns
(ok, reason). -/
def validate_order (st : EngineState) (symbol : String) (order_type : String)
    (quantity : ℚ) : Bool × String :=
  if order_type ≠ "buy" ∧ order_type ≠ "sell" then
    (false, "order_type must be buy or sell")
  else if quantity ≤ 0 then
    (false, "quantity must be positive")
  else if (lookupA st.market_data symbol).isNone then
    (false, "Unknown symbol")
  else if order_type = "sell" then
    let holding := holdingQty st symbol
    if holding + eps < quantity then
      (false, "Insufficient holdings to sell")
    else (true, "")
  else (true, "")

/-- `place_order(symbol, order_type, quantity, stop_loss, take_profit)`.
Returns the post-call state together with `Except.ok` (the confirmation
message) or `Except.error` (the raised `ValueError`'s message); every raise
in the source happens before any mutation of `self`, so the state returned
with an error is the pre-call state. -/
def place_order (st : EngineState) (symbol : String) (order_type : String)
    (quantity : ℚ) (stop_loss : Option ℚ) (take_profit : Option ℚ) :
    EngineState × Except String String :=
  match validate_order st symbol order_type quantity with
  | (false, msg) => (st, Except.error msg)
  | (true, _) =>
    match lookupA st.market_data symbol with
    | none => (st, Except.error "Symbol not found in market data.")
    | some price =>
      if order_type = "buy" then
        let cost := price * quantity
        if st.cash + eps < cost then
          (st, Except.error "Insufficient cash")
        else
          let newPortfolio :=
            updateA st.portfolio symbol (buyFill (lookupA st.portfolio symbol) price quantity)
          let st1 : EngineState :=
            { st with portfolio := newPortfolio,
                      cash := st.cash - cost,
                      trade_history := st.trade_history ++
                        [{ symbol := symbol, side := "buy", quantity := quantity,
                           price := price, realized_pnl := none }] }
          match stop_loss, take_profit with
          | none, none => (st1, Except.ok "buy executed")
          | _, _ =>
              ({ st1 with conditional_orders := st1.conditional_orders ++
                  [{ symbol := symbol, side := "sell", quantity := quantity,
                     stop_loss := stop_loss, take_profit := take_profit,
                     status := "open" }] },
               Except.ok "buy executed; conditional order created")
      else
        match lookupA st.portfolio symbol with
        | none => (st, Except.error "Insufficient holdings to sell")
        | some pos =>
          if pos.quantity < quantity - eps then
            (st, Except.error "Insufficient holdings to sell")
          else
            let avg_price := pos.avg_price
            let proceeds := price * quantity
            let realized := (price - avg_price) * quantity
            let newQty := pos.quantity - quantity
            let newPortfolio :=
              if newQty ≤ eps then eraseA st.portfolio symbol
              else updateA st.portfolio symbol { quantity := newQty, avg_price := avg_price }
            ({ st with portfolio := newPortfolio,
                       cash := st.cash + proceeds,
                       realized_pnl := st.realized_pnl + realized,
                       trade_history := st.trade_history ++
                         [{ symbol := symbol, side := "sell", quantity := quantity,
                            price := price, realized_pnl := some realized }] },
             Except.ok "sell executed")

/-- `_execute_conditional_sell(cond)`: returns the updated state and order;
`none` models the (unreachable from `_check_conditional_orders`) `KeyError`
that a direct call with a symbol missing from the market data would raise. -/
def execute_conditional_sell (st : EngineState) (cond : CondOrder) :
    Option (EngineState × CondOrder) :=
  if cond.status ≠ "open" then some (st, cond)
  else
    let holding_qty := holdingQty st cond.symbol
    if holding_qty ≤ 0 then
      some (st, { cond with status := "cancelled" })
    else
      let exec_qty := min holding_qty cond.quantity
      match lookupA st.market_data cond.symbol, lookupA st.portfolio cond.symbol with
      | some price, some pos =>
        let avg_price := pos.avg_price
        let proceeds := price * exec_qty
        let realized := (price - avg_price) * exec_qty
        let newQty := pos.quantity - exec_qty
        let newPortfolio :=
          if newQty ≤ eps then eraseA st.portfolio cond.symbol
          else updateA st.portfolio cond.symbol { quantity := newQty, avg_price := avg_price }
        some ({ st with portfolio := newPortfolio,
                        cash := st.cash + proceeds,
                        realized_pnl := st.realized_pnl + realized,
                        trade_history := st.trade_history ++
                          [{ symbol := cond.symbol, side := "sell", quantity := exec_qty,
                             price := price, realized_pnl := some realized }] },
              { cond with status := "triggered" })
      | _, _ => none

/-- Trigger test of `_check_conditional_orders`: price ≤ stop_loss (if set)
or price ≥ take_profit (if set). -/
def condTriggered (cond : CondOrder) (price : ℚ) : Bool :=
  (match cond.stop_loss with
   | some sl => decide (price ≤ sl)
   | none => false)
  ||
  (match cond.take_profit with
   | some tp => decide (tp ≤ price)
   | none => false)

/-- Loop body of `_check_conditional_orders` for one order. -/
def check_step (st : EngineState) (cond : CondOrder) : EngineState × CondOrder :=
  if cond.status ≠ "open" then (st, cond)
  else
    match lookupA st.market_data cond.symbol with
    | none => (st, cond)
    | some price =>
      if condTriggered cond price then
        match execute_conditional_sell st cond with
        | some res => res
        | none => (st, cond)
      else (st, cond)

/-- Loop of `_check_conditional_orders` over the (copied) order list,
threading the ledger state and collecting the updated orders. -/
def check_orders_go (st : EngineState) : List CondOrder → EngineState × List CondOrder
  | [] => (st, [])
  | cond :: rest =>
    let res := check_step st cond
    let res2 := check_orders_go res.1 rest
    (res2.1, res.2 :: res2.2)

/-- `_check_conditional_orders`: evaluate every order in sequence against the
current state (the source iterates over a copy of the list and updates each
order dict in place; the ledger mutations never touch the order list itself). -/
def check_conditional_orders (st : EngineState) : EngineState :=
  let res := check_orders_go st st.conditional_orders
  { res.1 with conditional_orders := res.2 }

/-- Observable events of one simulation run (`time.sleep` becomes `sleep`). -/
inductive TickEvent where
  | advance
  | evaluate
  | snapshot
  | sleep (interval : ℚ)
deriving DecidableEq

/-- `simulate_market_changes(steps, interval)` in its synchronous form
(`steps = pcts.length`, one sampled percentage-change function per tick):
returns the final state and the ordered trace of observable events. -/
def simulate_market_changes (pcts : List (String → ℚ)) (interval : ℚ)
    (st : EngineState) : EngineState × List TickEvent :=
  match pcts with
  | [] => (st, [])
  | pct :: rest =>
    let st1 := update_market_data pct st
    let st2 := check_conditional_orders st1
    let st3 := record_portfolio st2
    let res := simulate_market_changes rest interval st3
    (res.1,
     [TickEvent.advance, TickEvent.evaluate, TickEvent.snapshot, TickEvent.sleep interval]
       ++ res.2)

/-- One engine operation, for stating whole-history invariants. -/
inductive Op where
  | placeOrder (symbol : String) (order_type : String) (quantity : ℚ)
      (stop_loss : Option ℚ) (take_profit : Option ℚ)
  | advance (pct : String → ℚ)
  | evaluate
  | snapshot

/-- Apply one operation; a `place_order` that raises leaves the state as the
pre-call state (first component of `place_order`). -/
def applyOp (st : EngineState) (op : Op) : EngineState :=
  match op with
  | Op.placeOrder s t q sl tp => (place_order st s t q sl tp).1
  | Op.advance pct => update_market_data pct st
  | Op.evaluate => check_conditional_orders st
  | Op.snapshot => record_portfolio st

/-- Run a sequence of operations from a state. -/
def run (st : EngineState) (ops : List Op) : EngineState :=
  ops.foldl applyOp st

/-- Every market price is positive. -/
def marketOK (st : EngineState) : Prop :=
  ∀ p ∈ st.market_data, 0 < p.2

/-- Every conditional order carries a positive quantity. -/
def condQtyOK (st : EngineState) : Prop :=
  ∀ c ∈ st.conditional_orders, 0 < c.quantity

/-- Every stored position has strictly positive quantity. -/
def posOK (st : EngineState) : Prop :=
  ∀ p ∈ st.portfolio, 0 < p.2.quantity

/-- Combined invariant maintained by every engine operation. -/
def engineInv (st : EngineState) : Prop :=
  marketOK st ∧ condQtyOK st ∧ posOK st ∧ -eps ≤ st.cash

/-- Sequence of buy fills (price, quantity) folded through `buyFill`,
starting from no position: the position produced by a run of successful buys
of one symbol with no intervening sells. -/
def applyFills (fills : List (ℚ × ℚ)) : Option Position :=
  fills.foldl (fun pos pq => some (buyFill pos pq.1 pq.2)) none

/-- Total bought quantity of a fill sequence. -/
def totQ (fills : List (ℚ × ℚ)) : ℚ :=
  (fills.map Prod.snd).sum

/-- Total cost (price × quantity summed) of a fill sequence. -/
def totPQ (fills : List (ℚ × ℚ)) : ℚ :=
  (fills.map (fun pq => pq.1 * pq.2)).sum

/-- Modelled from the spec: the tick/wait schedule the specification ascribes
to `run_steps(n, interval)` — "performs exactly `n` ticks; each tick =
advance market → evaluate conditional orders → record a portfolio snapshot →
(if not the last tick) wait `interval` before the next tick". Stated here
only to be compared with the trace the source actually produces. -/
def specRunTrace : Nat → ℚ → List TickEvent
  | 0, _ => []
  | 1, _ => [TickEvent.advance, TickEvent.evaluate, TickEvent.snapshot]
  | n + 2, i =>
      [TickEvent.advance, TickEvent.evaluate, TickEvent.snapshot, TickEvent.sleep i]
        ++ specRunTrace (n + 1) i

/-! ### Association-list lemmas -/

theorem lookupA_mem {α : Type} (m : List (String × α)) (k : String) (v : α)
    (h : lookupA m k = some v) : (k, v) ∈ m := by
  induction m with
  | nil => simp [lookupA] at h
  | cons kv rest ih =>
      rw [lookupA] at h
      split at h
      · rename_i hk
        simp only [Option.some.injEq] at h
        subst h
        subst hk
        exact List.mem_cons_self _ _
      · exact List.mem_cons_of_mem _ (ih h)

theorem mem_updateA {α : Type} (m : List (String × α)) (k : String) (v : α) (x : String × α)
    (h : x ∈ updateA m k v) : x = (k, v) ∨ x ∈ m := by
  induction m with
  | nil => simp [updateA] at h; exact Or.inl h
  | cons kv rest ih =>
      rw [updateA] at h
      split at h
      · rw [List.mem_cons] at h
        rcases h with h | h
        · exact Or.inl h
        · exact Or.inr (List.mem_cons_of_mem _ h)
      · rw [List.mem_cons] at h
        rcases h with h | h
        · exact Or.inr (h ▸ List.mem_cons_self _ _)
        · rcases ih h with h' | h'
          · exact Or.inl h'
          · exact Or.inr (List.mem_cons_of_mem _ h')

theorem mem_eraseA {α : Type} (m : List (String × α)) (k : String) (x : String × α)
    (h : x ∈ eraseA m k) : x ∈ m := by
  induction m with
  | nil => simp [eraseA] at h
  | cons kv rest ih =>
      rw [eraseA] at h
      split at h
      · exact List.mem_cons_of_mem _ h
      · rw [List.mem_cons] at h
        rcases h with h | h
        · exact h ▸ List.mem_cons_self _ _
        · exact List.mem_cons_of_mem _ (ih h)

theorem lookupA_updateA_self {α : Type} (m : List (String × α)) (k : String) (v : α) :
    lookupA (updateA m k v) k = some v := by
  induction m with
  | nil => simp [updateA, lookupA]
  | cons kv rest ih =>
      rw [updateA]
      split
      · simp [lookupA]
      · rw [lookupA]
        split
        · simp_all
        · exact ih

theorem lookupA_eraseA_self {α : Type} (m : List (String × α)) (k : String)
    (hnd : (m.map Prod.fst).Nodup) : lookupA (eraseA m k) k = none := by
  induction m with
  | nil => rfl
  | cons kv rest ih =>
      rw [eraseA]
      simp only [List.map_cons, List.nodup_cons] at hnd
      split
      · rename_i hk
        subst hk
        cases hl : lookupA rest kv.1 with
        | none => rfl
        | some v => exact absurd (List.mem_map_of_mem Prod.fst (lookupA_mem rest kv.1 v hl)) hnd.1
      · rw [lookupA]
        split
        · simp_all
        · exact ih hnd.2

/-! ### Conditional-order evaluation lemmas -/

theorem holdingQty_eq (st : EngineState) (sym : String) (pos : Position)
    (hpos : lookupA st.portfolio sym = some pos) : holdingQty st sym = pos.quantity := by
  simp [holdingQty, hpos]

theorem exec_sell_status (st : EngineState) (cond : CondOrder) (res : EngineState × CondOrder) :
    execute_conditional_sell st cond = some res →
    res.2.status = cond.status ∨ res.2.status = "triggered" ∨ res.2.status = "cancelled" := by
  unfold execute_conditional_sell
  dsimp only
  repeat' split
  all_goals intro h
  all_goals simp_all
  all_goals simp [← h]

theorem check_step_status (st : EngineState) (cond : CondOrder) :
    (check_step st cond).2.status = cond.status ∨
      (cond.status = "open" ∧
        ((check_step st cond).2.status = "triggered" ∨
          (check_step st cond).2.status = "cancelled")) := by
  unfold check_step
  repeat' split
  · left; rfl
  · left; rfl
  · rename_i hopen hprice htrig res heq
    rcases exec_sell_status st cond res heq with h | h | h
    · left; exact h
    · right; exact ⟨by simp_all, Or.inl h⟩
    · right; exact ⟨by simp_all, Or.inr h⟩
  · left; rfl
  · left; rfl

theorem check_step_terminal (st : EngineState) (cond : CondOrder)
    (h : cond.status ≠ "open") : check_step st cond = (st, cond) := by
  simp [check_step, h]

theorem check_orders_go_terminal (conds : List CondOrder) (st : EngineState)
    (h : ∀ c ∈ conds, c.status ≠ "open") : check_orders_go st conds = (st, conds) := by
  induction conds generalizing st with
  | nil => rfl
  | cons c rest ih =>
      simp only [check_orders_go, check_step_terminal st c (h c (by simp)),
        ih st (fun d hd => h d (by simp [hd]))]

theorem exec_sell_spec (st : EngineState) (cond : CondOrder) (pos : Position) (price : ℚ)
    (hopen : cond.status = "open")
    (hprice : lookupA st.market_data cond.symbol = some price)
    (hpos : lookupA st.portfolio cond.symbol = some pos)
    (hq : 0 < pos.quantity) :
    execute_conditional_sell st cond =
      some ({ st with
          portfolio := if pos.quantity - min pos.quantity cond.quantity ≤ eps
                       then eraseA st.portfolio cond.symbol
                       else updateA st.portfolio cond.symbol
                              ⟨pos.quantity - min pos.quantity cond.quantity, pos.avg_price⟩,
          cash := st.cash + price * min pos.quantity cond.quantity,
          realized_pnl := st.realized_pnl + (price - pos.avg_price) * min pos.quantity cond.quantity,
          trade_history := st.trade_history ++
            [⟨cond.symbol, "sell", min pos.quantity cond.quantity, price,
              some ((price - pos.avg_price) * min pos.quantity cond.quantity)⟩] },
        { cond with status := "triggered" }) := by
  simp [execute_conditional_sell, hopen, holdingQty_eq st cond.symbol pos hpos, hprice, hpos,
    not_le.mpr hq]

theorem exec_sell_cancel (st : EngineState) (cond : CondOrder)
    (hopen : cond.status = "open")
    (hzero : holdingQty st cond.symbol = 0) :
    execute_conditional_sell st cond = some (st, { cond with status := "cancelled" }) := by
  simp [execute_conditional_sell, hopen, hzero]

theorem check_pass_single (st : EngineState) (cond : CondOrder)
    (h : st.conditional_orders = [cond]) :
    check_conditional_orders st =
      { (check_step st cond).1 with conditional_orders := [(check_step st cond).2] } := by
  unfold check_conditional_orders
  rw [h]
  rfl

/-! ### Simulation-trace lemmas -/

theorem count_flatten_replicate (n : Nat) (i : ℚ) :
    ((List.replicate n
        [TickEvent.advance, TickEvent.evaluate, TickEvent.snapshot, TickEvent.sleep i]).flatten).count
      TickEvent.snapshot = n := by
  induction n with
  | zero => rfl
  | succ n ih => simp [List.replicate_succ, List.count_append, List.count_cons, ih]

/-! ### Claim theorems -/

/-- C1: for an open conditional order whose symbol has a current price, one
evaluation pass executes a sell and marks the order "triggered" exactly when
the trigger condition (price ≤ stop_loss if set, or price ≥ take_profit if
set) holds and the held quantity is positive, selling min(order quantity,
held quantity); if the trigger condition holds but the held quantity is zero
the order becomes "cancelled" and no trade is recorded; if the trigger
condition does not hold, the order and all ledger state are unchanged. -/
theorem claim1_conditional_evaluation (st : EngineState) (cond : CondOrder) (price : ℚ)
    (horders : st.conditional_orders = [cond])
    (hopen : cond.status = "open")
    (hprice : lookupA st.market_data cond.symbol = some price) :
    (∀ pos, lookupA st.portfolio cond.symbol = some pos → 0 < pos.quantity →
        condTriggered cond price = true →
        check_conditional_orders st =
          { st with
              portfolio := if pos.quantity - min pos.quantity cond.quantity ≤ eps
                           then eraseA st.portfolio cond.symbol
                           else updateA st.portfolio cond.symbol
                                  ⟨pos.quantity - min pos.quantity cond.quantity, pos.avg_price⟩,
              cash := st.cash + price * min pos.quantity cond.quantity,
              realized_pnl := st.realized_pnl +
                (price - pos.avg_price) * min pos.quantity cond.quantity,
              conditional_orders := [{ cond with status := "triggered" }],
              trade_history := st.trade_history ++
                [⟨cond.symbol, "sell", min pos.quantity cond.quantity, price,
                  some ((price - pos.avg_price) * min pos.quantity cond.quantity)⟩] }) ∧
    (holdingQty st cond.symbol = 0 → condTriggered cond price = true →
        check_conditional_orders st =
          { st with conditional_orders := [{ cond with status := "cancelled" }] }) ∧
    (condTriggered cond price = false → check_conditional_orders st = st) := by
  refine ⟨?_, ?_, ?_⟩
  · intro pos hpos hq htrig
    rw [check_pass_single st cond horders]
    simp [check_step, hopen, hprice, htrig, exec_sell_spec st cond pos price hopen hprice hpos hq]
  · intro hzero htrig
    rw [check_pass_single st cond horders]
    simp [check_step, hopen, hprice, htrig, exec_sell_cancel st cond hopen hzero]
  · intro htrig
    rw [check_pass_single st cond horders]
    simp [check_step, hopen, hprice, htrig]
    rw [← horders]

/-- Witness for C1: after buying 1 AAPL at 150 with stop-loss 140, the
untriggered evaluation pass (price 150 > 140) leaves the state unchanged. -/
theorem claim1_conditional_evaluation_witness :
    condTriggered ⟨"AAPL", "sell", 1, some 140, none, "open"⟩ 150 = false ∧
    check_conditional_orders (place_order (initState 100000) "AAPL" "buy" 1 (some 140) none).1 =
      (place_order (initState 100000) "AAPL" "buy" 1 (some 140) none).1 :=
  ⟨by with_unfolding_all rfl,
   (claim1_conditional_evaluation
      (place_order (initState 100000) "AAPL" "buy" 1 (some 140) none).1
      ⟨"AAPL", "sell", 1, some 140, none, "open"⟩ 150
      (by with_unfolding_all rfl) rfl (by with_unfolding_all rfl)).2.2
    (by with_unfolding_all rfl)⟩

/-- C2: whenever `place_order` raises (invalid side, non-positive quantity,
unknown symbol, insufficient holdings, or insufficient cash), the engine
state after the call equals the state before it — no partial mutation. -/
theorem claim2_place_order_error_noop (st : EngineState) (symbol : String) (order_type : String)
    (quantity : ℚ) (stop_loss : Option ℚ) (take_profit : Option ℚ) (msg : String) :
    (place_order st symbol order_type quantity stop_loss take_profit).2 = Except.error msg →
    (place_order st symbol order_type quantity stop_loss take_profit).1 = st := by
  unfold place_order
  dsimp only
  repeat' split
  all_goals intro h
  all_goals first
    | rfl
    | simp at h

/-- Witness for C2: selling 1 AAPL with empty holdings raises and leaves the
freshly initialised engine state intact. -/
theorem claim2_place_order_error_noop_witness :
    (place_order (initState 100000) "AAPL" "sell" 1 none none).2 =
      Except.error "Insufficient holdings to sell" ∧
    (place_order (initState 100000) "AAPL" "sell" 1 none none).1 = initState 100000 :=
  ⟨by with_unfolding_all rfl,
   claim2_place_order_error_noop (initState 100000) "AAPL" "sell" 1 none none
     "Insufficient holdings to sell" (by with_unfolding_all rfl)⟩

/-- C4: a conditional order's status changes at most once and only away from
"open" (to "triggered" or "cancelled"); a terminal order is never
re-evaluated, and an evaluation pass over a state whose orders are all
terminal is a no-op on the entire state. -/
theorem claim4_status_transitions (st : EngineState) (cond : CondOrder) :
    ((check_step st cond).2.status ≠ cond.status →
      cond.status = "open" ∧
        ((check_step st cond).2.status = "triggered" ∨
          (check_step st cond).2.status = "cancelled")) ∧
    (cond.status ≠ "open" → check_step st cond = (st, cond)) ∧
    ((∀ c ∈ st.conditional_orders, c.status ≠ "open") →
      check_conditional_orders st = st) := by
  refine ⟨?_, check_step_terminal st cond, ?_⟩
  · intro h
    rcases check_step_status st cond with h' | h'
    · exact absurd h' h
    · exact h'
  · intro h
    unfold check_conditional_orders
    rw [check_orders_go_terminal st.conditional_orders st h]

/-- Witness for C4: with a single already-triggered order, re-running the
evaluation pass changes nothing. -/
theorem claim4_status_transitions_witness :
    check_conditional_orders
        { initState 100000 with
            conditional_orders := [⟨"AAPL", "sell", 1, some 100, none, "triggered"⟩] } =
      { initState 100000 with
          conditional_orders := [⟨"AAPL", "sell", 1, some 100, none, "triggered"⟩] } :=
  (claim4_status_transitions
      { initState 100000 with
          conditional_orders := [⟨"AAPL", "sell", 1, some 100, none, "triggered"⟩] }
      ⟨"AAPL", "sell", 1, some 100, none, "triggered"⟩).2.2
    (by intro c hc; simp at hc; simp [hc])

/-- C8 counterexample: the claim says the run waits between consecutive ticks
but not after the last one; with one step the source's trace ends in a sleep
event, so it differs from the claimed schedule. -/
theorem claim8_counterexample :
    (simulate_market_changes [fun _ => 0] 1 (initState 100000)).2 =
      [TickEvent.advance, TickEvent.evaluate, TickEvent.snapshot, TickEvent.sleep 1] ∧
    (simulate_market_changes [fun _ => 0] 1 (initState 100000)).2 ≠ specRunTrace 1 1 := by
  refine ⟨by with_unfolding_all rfl, ?_⟩
  with_unfolding_all decide

/-- C8 amended: the synchronous run with `n` steps performs exactly `n`
ticks, each tick = advance market → evaluate conditional orders → record a
portfolio snapshot (exactly `n` snapshot events), and it sleeps the interval
after every tick, including the last. -/
theorem claim8_trace (pcts : List (String → ℚ)) (interval : ℚ) (st : EngineState) :
    (simulate_market_changes pcts interval st).2 =
      (List.replicate pcts.length
        [TickEvent.advance, TickEvent.evaluate, TickEvent.snapshot,
          TickEvent.sleep interval]).flatten ∧
    (simulate_market_changes pcts interval st).1 =
      pcts.foldl
        (fun s pct => record_portfolio (check_conditional_orders (update_market_data pct s))) st ∧
    (simulate_market_changes pcts interval st).2.count TickEvent.snapshot = pcts.length := by
  induction pcts generalizing st with
  | nil => simp [simulate_market_changes]
  | cons pct rest ih =>
      refine ⟨?_, ?_, ?_⟩
      · simp [simulate_market_changes, List.replicate_succ, (ih _).1]
      · simp [simulate_market_changes, (ih _).2.1]
      · simp [simulate_market_changes, (ih _).1, List.count_append, List.count_cons,
          count_flatten_replicate]

/-- C10: `place_order` does not validate stop-loss/take-profit against the
current price: buying 1 AAPL at the current price 150 with stop_loss = 150
succeeds and creates an open conditional order, and the very next evaluation
pass with the price unchanged executes the protective sell (one sell trade
for the full quantity) and marks the order "triggered". -/
theorem claim10_no_sl_validation :
    (place_order (initState 100000) "AAPL" "buy" 1 (some 150) none).2 =
        Except.ok "buy executed; conditional order created" ∧
    lookupA (initState 100000).market_data "AAPL" = some 150 ∧
    (place_order (initState 100000) "AAPL" "buy" 1 (some 150) none).1.conditional_orders =
        [⟨"AAPL", "sell", 1, some 150, none, "open"⟩] ∧
    lookupA (place_order (initState 100000) "AAPL" "buy" 1 (some 150) none).1.market_data
        "AAPL" = some 150 ∧
    (check_conditional_orders
        (place_order (initState 100000) "AAPL" "buy" 1 (some 150) none).1).conditional_orders =
        [⟨"AAPL", "sell", 1, some 150, none, "triggered"⟩] ∧
    (check_conditional_orders
        (place_order (initState 100000) "AAPL" "buy" 1 (some 150) none).1).trade_history =
        [⟨"AAPL", "buy", 1, 150, none⟩, ⟨"AAPL", "sell", 1, 150, some 0⟩] := by
  refine ⟨?_, ?_, ?_, ?_, ?_, ?_⟩ <;> with_unfolding_all rfl

/-- C3 counterexample: starting from cash 0 (non-negative), a buy of
10⁻¹² AAPL costs 1.5·10⁻¹⁰ ≤ the 10⁻⁹ tolerance, so it executes and drives
the cash balance strictly negative. -/
theorem claim3_counterexample :
    (place_order (initState 0) "AAPL" "buy" (1 / 1000000000000) none none).2 =
        Except.ok "buy executed" ∧
    (run (initState 0) [Op.placeOrder "AAPL" "buy" (1 / 1000000000000) none none]).cash < 0 := by
  refine ⟨by with_unfolding_all rfl, ?_⟩
  have h : (run (initState 0) [Op.placeOrder "AAPL" "buy" (1 / 1000000000000) none none]).cash
      = -3 / 20000000000 := by with_unfolding_all rfl
  rw [h]
  norm_num

/-- C6 counterexample: holding exactly 1 AAPL, a sell of 1 + 10⁻¹⁰ strictly
exceeds the held quantity, yet `validate_order` accepts it and `place_order`
executes it (the check only rejects quantities above holdings + 10⁻⁹). -/
theorem claim6_counterexample :
    holdingQty ((place_order (initState 100000) "AAPL" "buy" 1 none none).1) "AAPL" = 1 ∧
    validate_order ((place_order (initState 100000) "AAPL" "buy" 1 none none).1) "AAPL" "sell"
        (1 + 1 / 10000000000) = (true, "") ∧
    (place_order ((place_order (initState 100000) "AAPL" "buy" 1 none none).1) "AAPL" "sell"
        (1 + 1 / 10000000000) none none).2 = Except.ok "sell executed" := by
  refine ⟨?_, ?_, ?_⟩ <;> with_unfolding_all rfl

/-- C7 counterexample: a successful buy of 10⁻¹² AAPL stores a position entry
whose quantity 10⁻¹² is below the 10⁻⁹ epsilon, so entries with quantity ≤
epsilon do exist in the position set. -/
theorem claim7_counterexample :
    (place_order (initState 100000) "AAPL" "buy" (1 / 1000000000000) none none).2 =
        Except.ok "buy executed" ∧
    lookupA (place_order (initState 100000) "AAPL" "buy" (1 / 1000000000000) none
        none).1.portfolio "AAPL" = some ⟨1 / 1000000000000, 150⟩ ∧
    (1 / 1000000000000 : ℚ) ≤ eps := by
  refine ⟨?_, ?_, ?_⟩
  · with_unfolding_all rfl
  · with_unfolding_all rfl
  · norm_num [eps]

/-! ### Invariant machinery and remaining claim theorems -/

theorem eps_pos : 0 < eps := by norm_num [eps]

theorem validate_true_pos (st : EngineState) (s t : String) (q : ℚ) (m : String) :
    validate_order st s t q = (true, m) → 0 < q := by
  unfold validate_order
  dsimp only
  repeat' split
  all_goals intro h
  all_goals simp_all

theorem posOK_buy_update (st : EngineState) (s : String) (price q : ℚ)
    (hq : 0 < q) (hp : posOK st) :
    ∀ x ∈ updateA st.portfolio s (buyFill (lookupA st.portfolio s) price q),
      0 < x.2.quantity := by
  intro x hx
  rcases mem_updateA _ _ _ _ hx with hx' | hx'
  · subst hx'
    rcases hpos : lookupA st.portfolio s with _ | pos
    · simpa [buyFill, hpos] using hq
    · have h1 : 0 < pos.quantity := hp _ (lookupA_mem _ _ _ hpos)
      simp only [buyFill, hpos]
      linarith
  · exact hp _ hx'

theorem place_order_inv (st : EngineState) (s t : String) (q : ℚ) (sl tp : Option ℚ)
    (h : engineInv st) : engineInv (place_order st s t q sl tp).1 := by
  obtain ⟨hm, hc, hp, hcash⟩ := h
  rcases hval : validate_order st s t q with ⟨ok, m⟩
  cases ok with
  | false => simp only [place_order, hval]; exact ⟨hm, hc, hp, hcash⟩
  | true =>
    have hq : 0 < q := validate_true_pos st s t q m hval
    cases hlook : lookupA st.market_data s with
    | none => simp only [place_order, hval, hlook]; exact ⟨hm, hc, hp, hcash⟩
    | some price =>
      have hprice : 0 < price := hm _ (lookupA_mem _ _ _ hlook)
      by_cases hbuy : t = "buy"
      · by_cases hcost : st.cash + eps < price * q
        · simp only [place_order, hval, hlook, if_pos hbuy, if_pos hcost]
          exact ⟨hm, hc, hp, hcash⟩
        · have hcash' : -eps ≤ st.cash - price * q := by
            simp only [not_lt] at hcost
            linarith
          have hpos' := posOK_buy_update st s price q hq hp
          cases sl with
          | none =>
            cases tp with
            | none =>
              simp only [place_order, hval, hlook, if_pos hbuy, if_neg hcost]
              exact ⟨hm, hc, hpos', hcash'⟩
            | some tpv =>
              simp only [place_order, hval, hlook, if_pos hbuy, if_neg hcost]
              refine ⟨hm, ?_, hpos', hcash'⟩
              intro c hcmem
              simp only [List.mem_append, List.mem_singleton] at hcmem
              rcases hcmem with hcmem | hcmem
              · exact hc _ hcmem
              · subst hcmem; exact hq
          | some slv =>
            simp only [place_order, hval, hlook, if_pos hbuy, if_neg hcost]
            cases tp with
            | none =>
              refine ⟨hm, ?_, hpos', hcash'⟩
              intro c hcmem
              simp only [List.mem_append, List.mem_singleton] at hcmem
              rcases hcmem with hcmem | hcmem
              · exact hc _ hcmem
              · subst hcmem; exact hq
            | some tpv =>
              refine ⟨hm, ?_, hpos', hcash'⟩
              intro c hcmem
              simp only [List.mem_append, List.mem_singleton] at hcmem
              rcases hcmem with hcmem | hcmem
              · exact hc _ hcmem
              · subst hcmem; exact hq
      · rcases hposl : lookupA st.portfolio s with _ | pos
        · simp only [place_order, hval, hlook, if_neg hbuy, hposl]
          exact ⟨hm, hc, hp, hcash⟩
        · by_cases hqty : pos.quantity < q - eps
          · simp only [place_order, hval, hlook, if_neg hbuy, hposl, if_pos hqty]
            exact ⟨hm, hc, hp, hcash⟩
          · have hcash' : -eps ≤ st.cash + price * q := by nlinarith
            simp only [place_order, hval, hlook, if_neg hbuy, hposl, if_neg hqty]
            refine ⟨hm, hc, ?_, hcash'⟩
            intro x hx
            split at hx
            · exact hp _ (mem_eraseA _ _ _ hx)
            · rcases mem_updateA _ _ _ _ hx with hx' | hx'
              · subst hx'
                rename_i hkeep
                simp only [not_le] at hkeep
                dsimp only
                linarith [eps_pos]
              · exact hp _ hx'

theorem exec_sell_qty (st : EngineState) (cond : CondOrder) (res : EngineState × CondOrder) :
    execute_conditional_sell st cond = some res → res.2.quantity = cond.quantity := by
  unfold execute_conditional_sell
  dsimp only
  repeat' split
  all_goals intro h
  all_goals simp_all
  all_goals simp [← h]

theorem check_step_qty (st : EngineState) (cond : CondOrder) :
    (check_step st cond).2.quantity = cond.quantity := by
  unfold check_step
  repeat' split
  · rfl
  · rfl
  · rename_i hopen hprice htrig res heq
    exact exec_sell_qty st cond res heq
  · rfl
  · rfl

theorem check_step_open_no_price (st : EngineState) (cond : CondOrder)
    (hopen : cond.status = "open")
    (hpr : lookupA st.market_data cond.symbol = none) :
    check_step st cond = (st, cond) := by
  simp [check_step, hopen, hpr]

theorem check_step_no_trigger (st : EngineState) (cond : CondOrder) (price : ℚ)
    (hopen : cond.status = "open")
    (hpr : lookupA st.market_data cond.symbol = some price)
    (htrig : condTriggered cond price = false) :
    check_step st cond = (st, cond) := by
  simp [check_step, hopen, hpr, htrig]

theorem check_step_triggered (st : EngineState) (cond : CondOrder) (price : ℚ)
    (res : EngineState × CondOrder)
    (hopen : cond.status = "open")
    (hpr : lookupA st.market_data cond.symbol = some price)
    (htrig : condTriggered cond price = true)
    (hexec : execute_conditional_sell st cond = some res) :
    check_step st cond = res := by
  simp [check_step, hopen, hpr, htrig, hexec]

theorem check_step_inv (st : EngineState) (cond : CondOrder)
    (hm : marketOK st) (hp : posOK st) (hcash : -eps ≤ st.cash) (hq : 0 < cond.quantity) :
    marketOK (check_step st cond).1 ∧ posOK (check_step st cond).1 ∧
      -eps ≤ (check_step st cond).1.cash ∧
      (check_step st cond).1.conditional_orders = st.conditional_orders := by
  by_cases hopen : cond.status = "open"
  · cases hpr : lookupA st.market_data cond.symbol with
    | none =>
        rw [check_step_open_no_price st cond hopen hpr]
        exact ⟨hm, hp, hcash, rfl⟩
    | some price =>
      have hprice : 0 < price := hm _ (lookupA_mem _ _ _ hpr)
      by_cases htrig : condTriggered cond price = true
      · rcases hql : lookupA st.portfolio cond.symbol with _ | pos
        · have hzero : holdingQty st cond.symbol = 0 := by simp [holdingQty, hql]
          rw [check_step_triggered st cond price _ hopen hpr htrig
            (exec_sell_cancel st cond hopen hzero)]
          exact ⟨hm, hp, hcash, rfl⟩
        · have hposq : 0 < pos.quantity := hp _ (lookupA_mem _ _ _ hql)
          have hmin : 0 < min pos.quantity cond.quantity := lt_min hposq hq
          rw [check_step_triggered st cond price _ hopen hpr htrig
            (exec_sell_spec st cond pos price hopen hpr hql hposq)]
          refine ⟨hm, ?_, by dsimp only; nlinarith, rfl⟩
          intro x hx
          dsimp only at hx
          split at hx
          · exact hp _ (mem_eraseA _ _ _ hx)
          · rcases mem_updateA _ _ _ _ hx with hx' | hx'
            · subst hx'
              rename_i hkeep
              simp only [not_le] at hkeep
              dsimp only
              linarith [eps_pos]
            · exact hp _ hx'
      · rw [check_step_no_trigger st cond price hopen hpr
          (by simpa using htrig)]
        exact ⟨hm, hp, hcash, rfl⟩
  · rw [check_step_terminal st cond hopen]
    exact ⟨hm, hp, hcash, rfl⟩



theorem check_orders_go_inv (conds : List CondOrder) (st : EngineState)
    (hm : marketOK st) (hp : posOK st) (hcash : -eps ≤ st.cash)
    (hqs : ∀ c ∈ conds, 0 < c.quantity) :
    marketOK (check_orders_go st conds).1 ∧ posOK (check_orders_go st conds).1 ∧
      -eps ≤ (check_orders_go st conds).1.cash ∧
      (check_orders_go st conds).1.conditional_orders = st.conditional_orders ∧
      ∀ c ∈ (check_orders_go st conds).2, 0 < c.quantity := by
  induction conds generalizing st with
  | nil => exact ⟨hm, hp, hcash, rfl, by simp [check_orders_go]⟩
  | cons cond rest ih =>
      have hq : 0 < cond.quantity := hqs cond (by simp)
      obtain ⟨hm1, hp1, hcash1, hord1⟩ := check_step_inv st cond hm hp hcash hq
      obtain ⟨hm2, hp2, hcash2, hord2, hqs2⟩ :=
        ih (check_step st cond).1 hm1 hp1 hcash1 (fun c hc => hqs c (by simp [hc]))
      refine ⟨hm2, hp2, hcash2, by rw [check_orders_go]; simpa [hord2] using hord1, ?_⟩
      intro c hc
      rw [check_orders_go] at hc
      simp only [List.mem_cons] at hc
      rcases hc with hc | hc
      · subst hc
        rw [check_step_qty st cond]
        exact hq
      · exact hqs2 c hc

theorem check_conditional_orders_inv (st : EngineState) (h : engineInv st) :
    engineInv (check_conditional_orders st) := by
  obtain ⟨hm, hc, hp, hcash⟩ := h
  obtain ⟨hm', hp', hcash', hord', hqs'⟩ :=
    check_orders_go_inv st.conditional_orders st hm hp hcash hc
  exact ⟨hm', hqs', hp', hcash'⟩

theorem update_market_data_inv (pct : String → ℚ) (st : EngineState) (h : engineInv st) :
    engineInv (update_market_data pct st) := by
  obtain ⟨hm, hc, hp, hcash⟩ := h
  refine ⟨?_, hc, hp, hcash⟩
  intro p hpm
  simp only [update_market_data, List.mem_map] at hpm
  obtain ⟨sp, _, hsp⟩ := hpm
  rw [← hsp]
  have h1 : (0:ℚ) < priceFloor := by norm_num [priceFloor]
  exact lt_of_lt_of_le h1 (le_max_left _ _)

theorem record_portfolio_inv (st : EngineState) (h : engineInv st) :
    engineInv (record_portfolio st) := by
  obtain ⟨hm, hc, hp, hcash⟩ := h
  exact ⟨hm, hc, hp, hcash⟩

theorem initState_inv (c : ℚ) (h : 0 ≤ c) : engineInv (initState c) := by
  refine ⟨?_, ?_, ?_, ?_⟩
  · intro p hp
    simp only [initState, record_portfolio] at hp
    fin_cases hp <;> norm_num
  · intro cd hcd
    simp [initState, record_portfolio] at hcd
  · intro p hp
    simp [initState, record_portfolio] at hp
  · simp only [initState, record_portfolio]
    linarith [eps_pos]

theorem applyOp_inv (st : EngineState) (op : Op) (h : engineInv st) :
    engineInv (applyOp st op) := by
  cases op with
  | placeOrder s t q sl tp => exact place_order_inv st s t q sl tp h
  | advance pct => exact update_market_data_inv pct st h
  | evaluate => exact check_conditional_orders_inv st h
  | snapshot => exact record_portfolio_inv st h

theorem run_inv (ops : List Op) (st : EngineState) (h : engineInv st) :
    engineInv (run st ops) := by
  induction ops generalizing st with
  | nil => exact h
  | cons op rest ih => exact ih (applyOp st op) (applyOp_inv st op h)

/-- C3 amended: starting from any non-negative cash, after any sequence of
operations the cash balance never drops below -eps = -1e-9 (the claimed
bound 0 fails by the tolerance, see the counterexample); and a buy whose
cost exceeds cash + 1e-9 raises the insufficient-cash error and returns the
state unchanged. -/
theorem claim3_cash_lower_bound :
    (∀ (c0 : ℚ) (ops : List Op), 0 ≤ c0 → -eps ≤ (run (initState c0) ops).cash) ∧
    (∀ (st : EngineState) (sym : String) (q : ℚ) (sl tp : Option ℚ) (price : ℚ) (m : String),
      validate_order st sym "buy" q = (true, m) →
      lookupA st.market_data sym = some price →
      st.cash + eps < price * q →
      place_order st sym "buy" q sl tp = (st, Except.error "Insufficient cash")) := by
  constructor
  · intro c0 ops h
    exact (run_inv ops (initState c0) (initState_inv c0 h)).2.2.2
  · intro st sym q sl tp price m hval hlook hcost
    simp [place_order, hval, hlook, hcost]

/-- Witness for C3 amended: a concrete run keeps cash above -eps, and a
concrete over-budget buy (cost 150 against cash 100) raises and leaves the
state intact. -/
theorem claim3_cash_lower_bound_witness :
    (0:ℚ) ≤ 100000 ∧
    -eps ≤ (run (initState 100000) [Op.placeOrder "AAPL" "buy" 1 none none]).cash ∧
    place_order (initState 100) "AAPL" "buy" 1 none none =
      (initState 100, Except.error "Insufficient cash") := by
  refine ⟨by norm_num,
    claim3_cash_lower_bound.1 100000 [Op.placeOrder "AAPL" "buy" 1 none none] (by norm_num),
    claim3_cash_lower_bound.2 (initState 100) "AAPL" 1 none none 150 ""
      (by with_unfolding_all rfl) (by with_unfolding_all rfl) ?_⟩
  have h : (initState 100).cash = 100 := by with_unfolding_all rfl
  rw [h]
  norm_num [eps]

/-- C7 amended: after any sequence of operations every stored position has
strictly positive quantity (never negative); and a successful sell leaves
the sold symbol either removed or with quantity strictly above eps. The
original claim's stronger clause — that no entry with quantity ≤ eps ever
exists — fails for buys of tiny quantity (see the counterexample). -/
theorem claim7_position_quantities :
    (∀ (c0 : ℚ) (ops : List Op) (p : String × Position), 0 ≤ c0 →
      p ∈ (run (initState c0) ops).portfolio → 0 < p.2.quantity) ∧
    (∀ (st : EngineState) (sym : String) (q : ℚ) (sl tp : Option ℚ) (m : String),
      (st.portfolio.map Prod.fst).Nodup →
      (place_order st sym "sell" q sl tp).2 = Except.ok m →
      lookupA (place_order st sym "sell" q sl tp).1.portfolio sym = none ∨
        ∃ pos', lookupA (place_order st sym "sell" q sl tp).1.portfolio sym = some pos' ∧
          eps < pos'.quantity) := by
  constructor
  · intro c0 ops p h hp
    exact (run_inv ops (initState c0) (initState_inv c0 h)).2.2.1 p hp
  · intro st sym q sl tp m hnd hok
    rcases hval : validate_order st sym "sell" q with ⟨ok, msg⟩
    cases ok with
    | false => simp [place_order, hval] at hok
    | true =>
      cases hlook : lookupA st.market_data sym with
      | none => simp [place_order, hval, hlook] at hok
      | some price =>
        rcases hposl : lookupA st.portfolio sym with _ | pos
        · simp [place_order, hval, hlook, hposl] at hok
        · by_cases hqty : pos.quantity < q - eps
          · simp [place_order, hval, hlook, hposl, hqty] at hok
          · by_cases hkeep : pos.quantity - q ≤ eps
            · have hred : (place_order st sym "sell" q sl tp).1.portfolio =
                  eraseA st.portfolio sym := by
                simp [place_order, hval, hlook, hposl, hqty, hkeep]
              rw [hred]
              exact Or.inl (lookupA_eraseA_self st.portfolio sym hnd)
            · have hred : (place_order st sym "sell" q sl tp).1.portfolio =
                  updateA st.portfolio sym ⟨pos.quantity - q, pos.avg_price⟩ := by
                simp [place_order, hval, hlook, hposl, hqty, hkeep]
              rw [hred]
              refine Or.inr ⟨⟨pos.quantity - q, pos.avg_price⟩,
                lookupA_updateA_self st.portfolio sym _, ?_⟩
              show eps < pos.quantity - q
              linarith [not_le.mp hkeep]

/-- Witness for C7 amended: a concrete buy yields the positive position the
theorem guarantees, and a concrete full sell removes the entry. -/
theorem claim7_position_quantities_witness :
    ((0:ℚ) ≤ 100000 ∧
      ("AAPL", (⟨1, 150⟩ : Position)) ∈
        (run (initState 100000) [Op.placeOrder "AAPL" "buy" 1 none none]).portfolio ∧
      0 < (1:ℚ)) ∧
    (((place_order (initState 100000) "AAPL" "buy" 1 none none).1.portfolio.map
        Prod.fst).Nodup ∧
      (place_order ((place_order (initState 100000) "AAPL" "buy" 1 none none).1) "AAPL" "sell"
          1 none none).2 = Except.ok "sell executed" ∧
      lookupA (place_order ((place_order (initState 100000) "AAPL" "buy" 1 none none).1) "AAPL"
          "sell" 1 none none).1.portfolio "AAPL" = none) := by
  have hmem : ("AAPL", (⟨1, 150⟩ : Position)) ∈
      (run (initState 100000) [Op.placeOrder "AAPL" "buy" 1 none none]).portfolio := by
    have h : (run (initState 100000) [Op.placeOrder "AAPL" "buy" 1 none none]).portfolio =
        [("AAPL", (⟨1, 150⟩ : Position))] := by with_unfolding_all rfl
    rw [h]
    simp
  have hnd : ((place_order (initState 100000) "AAPL" "buy" 1 none none).1.portfolio.map
      Prod.fst).Nodup := by
    have h : (place_order (initState 100000) "AAPL" "buy" 1 none none).1.portfolio =
        [("AAPL", (⟨1, 150⟩ : Position))] := by with_unfolding_all rfl
    rw [h]
    simp
  have hok : (place_order ((place_order (initState 100000) "AAPL" "buy" 1 none none).1) "AAPL"
      "sell" 1 none none).2 = Except.ok "sell executed" := by with_unfolding_all rfl
  refine ⟨⟨by norm_num, hmem,
      claim7_position_quantities.1 100000 [Op.placeOrder "AAPL" "buy" 1 none none]
        ("AAPL", ⟨1, 150⟩) (by norm_num) hmem⟩,
    hnd, hok, ?_⟩
  rcases claim7_position_quantities.2 ((place_order (initState 100000) "AAPL" "buy" 1 none
      none).1) "AAPL" 1 none none "sell executed" hnd hok with h | ⟨pos', hpos', hq'⟩
  · exact h
  · exfalso
    have h : lookupA (place_order ((place_order (initState 100000) "AAPL" "buy" 1 none
        none).1) "AAPL" "sell" 1 none none).1.portfolio "AAPL" = none := by
      with_unfolding_all rfl
    rw [h] at hpos'
    cases hpos'

theorem applyFills_loop (fills : List (ℚ × ℚ)) (hpos : ∀ f ∈ fills, 0 < f.2)
    (Q A : ℚ) (hQ : 0 < Q) :
    fills.foldl (fun pos pq => some (buyFill pos pq.1 pq.2)) (some ⟨Q, A⟩) =
      some ⟨Q + totQ fills, (A * Q + totPQ fills) / (Q + totQ fills)⟩ := by
  induction fills generalizing Q A with
  | nil =>
      simp only [List.foldl_nil, totQ, totPQ, List.map_nil, List.sum_nil, add_zero]
      rw [mul_div_assoc, div_self (ne_of_gt hQ), mul_one]
  | cons f rest ih =>
      obtain ⟨p, q⟩ := f
      have hq : 0 < q := hpos (p, q) (by simp)
      have hQ' : 0 < Q + q := by linarith
      rw [List.foldl_cons]
      dsimp only
      have hb : buyFill (some ⟨Q, A⟩) p q = ⟨Q + q, (A * Q + p * q) / (Q + q)⟩ := rfl
      rw [hb, ih (fun g hg => hpos g (by simp [hg])) (Q + q) _ hQ']
      simp only [Option.some.injEq, Position.mk.injEq]
      constructor
      · simp only [totQ, List.map_cons, List.sum_cons]
        ring
      · rw [div_mul_cancel₀ _ (ne_of_gt hQ')]
        simp only [totQ, totPQ, List.map_cons, List.sum_cons]
        congr 1 <;> ring

/-- C5: after a sequence of buy fills on one symbol with no intervening
sells, the position is exactly (total quantity, quantity-weighted mean of
the fill prices); the result is invariant under permutation of the fills;
and a successful sell that leaves the position in place keeps its average
cost unchanged while strictly reducing its quantity by the sold amount. -/
theorem claim5_average_cost :
    (∀ (fills : List (ℚ × ℚ)), (∀ f ∈ fills, 0 < f.2) → fills ≠ [] →
      applyFills fills = some ⟨totQ fills, totPQ fills / totQ fills⟩) ∧
    (∀ (fills fills' : List (ℚ × ℚ)), fills.Perm fills' → (∀ f ∈ fills, 0 < f.2) →
      applyFills fills = applyFills fills') ∧
    (∀ (st : EngineState) (sym : String) (q : ℚ) (sl tp : Option ℚ) (m : String)
        (pos pos' : Position),
      (st.portfolio.map Prod.fst).Nodup →
      (place_order st sym "sell" q sl tp).2 = Except.ok m →
      lookupA st.portfolio sym = some pos →
      lookupA (place_order st sym "sell" q sl tp).1.portfolio sym = some pos' →
      pos'.avg_price = pos.avg_price ∧ pos'.quantity = pos.quantity - q ∧
        pos'.quantity < pos.quantity) := by
  have part1 : ∀ (fills : List (ℚ × ℚ)), (∀ f ∈ fills, 0 < f.2) → fills ≠ [] →
      applyFills fills = some ⟨totQ fills, totPQ fills / totQ fills⟩ := by
    intro fills hpos hne
    cases fills with
    | nil => exact absurd rfl hne
    | cons f rest =>
        have hq : 0 < f.2 := hpos f (by simp)
        unfold applyFills
        rw [List.foldl_cons]
        have hb : buyFill none f.1 f.2 = ⟨f.2, f.1⟩ := rfl
        rw [hb, applyFills_loop rest (fun g hg => hpos g (by simp [hg])) f.2 f.1 hq]
        simp only [totQ, totPQ, List.map_cons, List.sum_cons]
  refine ⟨part1, ?_, ?_⟩
  · intro fills fills' hperm hpos
    cases hemp : fills with
    | nil =>
        subst hemp
        rw [hperm.symm.eq_nil]
    | cons f rest =>
        subst hemp
        have hne : (f :: rest) ≠ ([] : List (ℚ × ℚ)) := by simp
        have hne' : fills' ≠ [] := by
          intro hcon
          rw [hcon] at hperm
          exact hne hperm.eq_nil
        have hpos' : ∀ g ∈ fills', 0 < g.2 := fun g hg => hpos g (hperm.mem_iff.mpr hg)
        rw [part1 _ hpos hne, part1 _ hpos' hne']
        have hQ : totQ (f :: rest) = totQ fills' := (hperm.map Prod.snd).sum_eq
        have hPQ : totPQ (f :: rest) = totPQ fills' := by
          unfold totPQ
          exact ((hperm.map (fun pq => pq.1 * pq.2)).sum_eq :)
        rw [hQ, hPQ]
  · intro st sym q sl tp m pos pos' hnd hok hpos hpos'
    rcases hval : validate_order st sym "sell" q with ⟨ok, msg⟩
    cases ok with
    | false => simp [place_order, hval] at hok
    | true =>
      have hq : 0 < q := validate_true_pos st sym "sell" q msg hval
      cases hlook : lookupA st.market_data sym with
      | none => simp [place_order, hval, hlook] at hok
      | some price =>
        by_cases hqty : pos.quantity < q - eps
        · simp [place_order, hval, hlook, hpos, hqty] at hok
        · by_cases hkeep : pos.quantity - q ≤ eps
          · have hred : (place_order st sym "sell" q sl tp).1.portfolio =
                eraseA st.portfolio sym := by
              simp [place_order, hval, hlook, hpos, hqty, hkeep]
            rw [hred, lookupA_eraseA_self st.portfolio sym hnd] at hpos'
            cases hpos'
          · have hred : (place_order st sym "sell" q sl tp).1.portfolio =
                updateA st.portfolio sym ⟨pos.quantity - q, pos.avg_price⟩ := by
              simp [place_order, hval, hlook, hpos, hqty, hkeep]
            rw [hred, lookupA_updateA_self st.portfolio sym _] at hpos'
            have hpe : pos' = (⟨pos.quantity - q, pos.avg_price⟩ : Position) := by
              exact Option.some.inj hpos'.symm
            subst hpe
            exact ⟨rfl, rfl, by show pos.quantity - q < pos.quantity; linarith⟩

/-- C6 amended: a sell whose quantity exceeds the held quantity by more
than eps = 1e-9 fails `validate_order` and makes `place_order` raise with
the state unchanged. The original claim (any strictly larger quantity is
rejected) fails inside the tolerance band, see the counterexample. -/
theorem claim6_oversell_rejected (st : EngineState) (sym : String) (q : ℚ)
    (sl tp : Option ℚ) (h : holdingQty st sym + eps < q) :
    (validate_order st sym "sell" q).1 = false ∧
    (place_order st sym "sell" q sl tp).1 = st ∧
    ∃ msg, (place_order st sym "sell" q sl tp).2 = Except.error msg := by
  have hv : (validate_order st sym "sell" q).1 = false := by
    unfold validate_order
    dsimp only
    repeat' split
    all_goals first
      | rfl
      | simp_all
  rcases hval : validate_order st sym "sell" q with ⟨ok, m⟩
  have hok : ok = false := by rw [hval] at hv; exact hv
  subst hok
  exact ⟨rfl, by simp [place_order, hval], ⟨m, by simp [place_order, hval]⟩⟩

/-- Witness for C6 amended: holding 1 AAPL, selling 2 is rejected and the
state is unchanged. -/
theorem claim6_oversell_rejected_witness :
    holdingQty ((place_order (initState 100000) "AAPL" "buy" 1 none none).1) "AAPL" + eps < 2 ∧
    (validate_order ((place_order (initState 100000) "AAPL" "buy" 1 none none).1) "AAPL"
        "sell" 2).1 = false ∧
    (place_order ((place_order (initState 100000) "AAPL" "buy" 1 none none).1) "AAPL" "sell" 2
        none none).1 = (place_order (initState 100000) "AAPL" "buy" 1 none none).1 := by
  have hh : holdingQty ((place_order (initState 100000) "AAPL" "buy" 1 none none).1) "AAPL"
      = 1 := by with_unfolding_all rfl
  have h : holdingQty ((place_order (initState 100000) "AAPL" "buy" 1 none none).1) "AAPL"
      + eps < 2 := by rw [hh]; norm_num [eps]
  obtain ⟨h1, h2, h3⟩ := claim6_oversell_rejected
    ((place_order (initState 100000) "AAPL" "buy" 1 none none).1) "AAPL" 2 none none h
  exact ⟨h, h1, h2⟩

/-- Witness for C5: fills (price 10, qty 1) and (price 20, qty 3) in either
order give the position (4, 70/4), and selling half of a 1-share position
keeps the 150 average cost. -/
theorem claim5_average_cost_witness :
    applyFills [((10:ℚ), (1:ℚ)), (20, 3)] =
      some ⟨totQ [((10:ℚ), (1:ℚ)), (20, 3)],
        totPQ [((10:ℚ), (1:ℚ)), (20, 3)] / totQ [((10:ℚ), (1:ℚ)), (20, 3)]⟩ ∧
    applyFills [((10:ℚ), (1:ℚ)), (20, 3)] = applyFills [((20:ℚ), (3:ℚ)), (10, 1)] ∧
    ((⟨1/2, 150⟩ : Position).avg_price = (⟨1, 150⟩ : Position).avg_price ∧
      (⟨1/2, 150⟩ : Position).quantity = (⟨1, 150⟩ : Position).quantity - 1/2 ∧
      (⟨1/2, 150⟩ : Position).quantity < (⟨1, 150⟩ : Position).quantity) := by
  refine ⟨claim5_average_cost.1 _ (by norm_num) (by simp), ?_, ?_⟩
  · exact claim5_average_cost.2.1 _ _ (List.Perm.swap (20, 3) (10, 1) []) (by norm_num)
  · exact claim5_average_cost.2.2
      ((place_order (initState 100000) "AAPL" "buy" 1 none none).1) "AAPL" (1/2) none none
      "sell executed" ⟨1, 150⟩ ⟨1/2, 150⟩
      (by
        have h : (place_order (initState 100000) "AAPL" "buy" 1 none none).1.portfolio =
            [("AAPL", (⟨1, 150⟩ : Position))] := by with_unfolding_all rfl
        rw [h]; simp)
      (by with_unfolding_all rfl)
      (by with_unfolding_all rfl)
      (by with_unfolding_all rfl)

end TraidingEngine
